import Mathlib

/-!
Verification development for the poker-scenario-analyzer test bot.

Shallow embedding of the style-calibrated decision engine and the
outcome-analytics layer:
* `score_omaha_hand` — the PLO hand-strength scorer (OmahaTestRunner.py)
* `omahaPreflop`, `omahaPostflop`, `omahaStyleAction`, `omahaHeuristic` —
  the OmahaPlayer decision policy (OmahaTestRunner.py)
* `stylePreflop`, `stylePostflop` and helpers — the StyleBasedPlayer
  decision policy (StyleBasedTestRunner.py)
* `calculate_sample_size_needed`, `confidenceIntervalBB100` — the
  statistical planner (StyleBasedTestRunner.py)
* `compute_metrics` — the trajectory tracker (TrajectoryAnalyzer.py)
* `head_to_head` — the head-to-head aggregation (HandDataCapture.py)

Python numbers are modelled by ℤ/ℚ (the source only manipulates ints and
small decimal constants); `random.random()` draws are passed explicitly;
fallible operations (HTTP calls, attribute access) are modelled by Option.
-/

namespace PokerScenario

/-- Python `int()` applied to a rational: truncation toward zero. -/
def pyInt (q : ℚ) : ℤ := if q < 0 then Int.ceil q else Int.floor q

/-- Python `dict.get(k, d)` on a literal dict modelled as an association list. -/
def lookupD {α β : Type} [BEq α] (l : List (α × β)) (k : α) (d : β) : β :=
  ((l.find? (fun p => p.1 == k)).map Prod.snd).getD d

/-- Python `max(l)` for a possibly-empty list (`d` is never used on the
non-empty lists the source applies it to). -/
def listMaxD {α : Type} [LinearOrder α] (l : List α) (d : α) : α :=
  match l with
  | [] => d
  | x :: xs => xs.foldl max x

/-! ## Card utilities (OmahaTestRunner.py) -/

/-- A clubs card as accessed through `str(card.rank)` / `str(card.suit)`;
`bogus` models an object on which the attribute access raises, which is the
only way `card_rank_num`/`card_suit_char` can fail (their dict lookups have
defaults). -/
inductive PyCard
  | card (rank : String) (suit : String)
  | bogus
deriving DecidableEq

/-- RANK_VALUES table. -/
def RANK_VALUES : List (String × ℚ) :=
  [("2",2),("3",3),("4",4),("5",5),("6",6),("7",7),("8",8),
   ("9",9),("T",10),("J",11),("Q",12),("K",13),("A",14),("10",10)]

/-- SUIT_CONVERT table. -/
def SUIT_CONVERT : List (String × Char) :=
  [("♣",'c'),("♦",'d'),("♥",'h'),("♠",'s'),
   ("c",'c'),("d",'d'),("h",'h'),("s",'s')]

/-- `card_rank_num`: numeric rank with default 7; fails only on attribute error. -/
def card_rank_num : PyCard → Option ℚ
  | .card r _ => some (lookupD RANK_VALUES r 7)
  | .bogus => none

/-- `card_suit_char`: suit character with default `c`; fails only on attribute error. -/
def card_suit_char : PyCard → Option Char
  | .card _ s => some (lookupD SUIT_CONVERT s 'c')
  | .bogus => none

/-- The extraction loop at the top of `score_omaha_hand`: collect ranks and
suits card by card, aborting (the `except` branch) as soon as one card is
malformed. -/
def extractRanksSuits : List PyCard → Option (List ℚ × List Char)
  | [] => some ([], [])
  | c :: cs =>
    match card_rank_num c, card_suit_char c, extractRanksSuits cs with
    | some r, some s, some (rs, ss) => some (r :: rs, s :: ss)
    | _, _, _ => none

/-! ## Hand scoring (`score_omaha_hand`) -/

/-- High card value (0-25): `(avg_rank / 14) * 25`. -/
def highCardScore (ranks : List ℚ) : ℚ :=
  ((ranks.sum / ranks.length) / 14) * 25

/-- Pairs (0-20): `10 + (max(pairs)/14)*10` when some rank repeats. -/
def pairScore (ranks : List ℚ) : ℚ :=
  let pairs := ranks.dedup.filter (fun r => 2 ≤ ranks.count r)
  if pairs = [] then 0 else 10 + (listMaxD pairs 0 / 14) * 10

/-- Suitedness (0-15): 15 double-suited, 12 for a suit with ≥3 cards,
8 for a suit with exactly 2+. -/
def suitScore (suits : List Char) : ℚ :=
  let counts := suits.dedup.map (fun s => suits.count s)
  let suited_groups := counts.countP (fun c => decide (2 ≤ c))
  if 2 ≤ suited_groups then 15
  else if 3 ≤ listMaxD counts 0 then 12
  else if 2 ≤ listMaxD counts 0 then 8
  else 0

/-- Connectivity (0-20): `max(0, 20 - (avg_gap - 1) * 5)` over the sorted
distinct ranks. -/
def connectScore (ranks : List ℚ) : ℚ :=
  let uniq := ranks.dedup.mergeSort (fun a b => decide (a ≤ b))
  if 2 ≤ uniq.length then
    let gaps := List.zipWith (fun a b => a - b) uniq.tail uniq
    let avg_gap := gaps.sum / gaps.length
    max 0 (20 - (avg_gap - 1) * 5)
  else 0

/-- The `suited_ace` flag: some Ace shares its suit with another hole card. -/
def suitedAce (ranks : List ℚ) (suits : List Char) : Bool :=
  (List.range ranks.length).any (fun i =>
    (ranks.getD i 0 == 14) &&
    (List.range ranks.length).any (fun j =>
      (j != i) && (suits.getD i 'x' == suits.getD j 'x')))

/-- Nut potential (0-20): suited Ace +15, bare Ace +8, plus +5 for three
cards of rank ≥ 10. -/
def nutScore (ranks : List ℚ) (suits : List Char) : ℚ :=
  (if suitedAce ranks suits then 15
   else if 14 ∈ ranks then 8 else 0)
  + (if 3 ≤ ranks.countP (fun r => decide (10 ≤ r)) then 5 else 0)

/-- `score_omaha_hand`: PLO hand score, clamped to [0, 100]; 25 on empty or
malformed input. -/
def score_omaha_hand (hole_cards : List PyCard) : ℚ :=
  if hole_cards = [] then 25
  else
    match extractRanksSuits hole_cards with
    | none => 25
    | some (ranks, suits) =>
      let s := highCardScore ranks + pairScore ranks + suitScore suits
               + connectScore ranks + nutScore ranks suits
      min 100 (max 0 s)

/-! ## Omaha player (OmahaTestRunner.py, class OmahaPlayer) -/

/-- Style fields of a STYLES entry as used by the decision code; the fields
the code reads with `.get` and a default are Options. -/
structure OStyle where
  pfr_ratio : ℚ
  aggression : ℚ
  cbet : ℚ
  fold_cbet : ℚ
  raise_sizing : Option ℚ
  postflop_agg : Option ℚ

/-- POS_ADJ fallback table (hardcoded path). -/
def POS_ADJ : List (String × ℚ) :=
  [("BTN",12),("CO",6),("HJ",2),("MP",-3),("EP",-8),("UTG",-12),("SB",-5),("BB",0)]

/-- Seat-name lists of `OmahaPlayer.position`. -/
def positionNames (num_p : ℕ) : List String :=
  if num_p ≤ 3 then ["BTN","SB","BB"]
  else if num_p ≤ 6 then ["UTG","MP","CO","BTN","SB","BB"]
  else ["UTG","UTG","EP","MP","HJ","CO","BTN","SB","BB"]

/-- `OmahaPlayer.position`: rotate the seat index by the hand number
(Python `%` on a possibly negative int is `Int.emod`). -/
def position (idx num_p hand_num : ℕ) : String :=
  let pos := positionNames num_p
  let rotated_idx := (((idx : ℤ) - (hand_num : ℤ)).emod (num_p : ℤ)).toNat
  pos.getD (rotated_idx % pos.length) "BB"

/-- Immutable per-player configuration of an OmahaPlayer. -/
structure OCtx where
  idx : ℕ
  style : String
  sd : OStyle
  threshold : ℚ

/-- The per-hand mutable VPIP tracking of an OmahaPlayer. -/
structure OState where
  vpip_hands : ℕ
  vpip_this_hand : Bool
deriving DecidableEq

/-- `OmahaPlayer.new_hand`: reset the per-hand voluntary-entry flag. -/
def new_hand (s : OState) : OState := { s with vpip_this_hand := false }

/-- A decision of the OmahaPlayer policy. The clubs engine takes a single
integer: `fold` is encoded as the bet value -1 (no chips committed), `call`
returns the legal call amount, `raise` a raise total. The constructor is the
action counter the source bumps on the same line as each return. -/
inductive OAct
  | fold
  | call (amt : ℤ)
  | raise (amt : ℤ)
deriving DecidableEq

/-- The integer actually sent to the clubs engine for an `OAct`. -/
def OAct.wire : OAct → ℤ
  | .fold => -1
  | .call amt => amt
  | .raise amt => amt

/-- Inputs of one `OmahaPlayer._preflop` decision point; `r` is the
`random.random()` draw available to this decision (the policy consumes at
most one draw preflop). -/
structure PreIn where
  hole : List PyCard
  callAmt : ℤ
  pot : ℤ
  stk : ℤ
  mnr : ℤ
  mxr : ℤ
  num_p : ℕ
  hand_num : ℕ
  r : ℚ

/-- `OmahaPlayer._preflop`: threshold entry with PFR raises, free play from
the big blind, marginal calls for loose styles, otherwise fold. Returns the
action and the updated VPIP state. -/
def omahaPreflop (c : OCtx) (st : OState) (i : PreIn) : OAct × OState :=
  let score := score_omaha_hand i.hole
  let adj := score + lookupD POS_ADJ (position c.idx i.num_p i.hand_num) 0
  let pfr := c.sd.pfr_ratio
  let sizing := c.sd.raise_sizing.getD 0.75
  if c.threshold ≤ adj then
    let st1 := if st.vpip_this_hand then st else ⟨st.vpip_hands + 1, true⟩
    if i.r < pfr ∧ i.mnr ≤ i.mxr then
      (.raise (max i.mnr (min i.mxr (pyInt ((i.pot : ℚ) * sizing)))), st1)
    else (.call i.callAmt, st1)
  else if i.callAmt = 0 then (.call 0, st)
  else
    let margin : ℚ :=
      if c.style = "lag" ∨ c.style = "fish" then 5
      else if c.style = "tag" ∨ c.style = "reg" then 3 else 0
    if 0 < margin ∧ c.threshold - margin ≤ adj then
      let max_call_pct : ℚ :=
        lookupD [("fish", 0.08), ("lag", 0.05), ("tag", 0.03), ("reg", 0.03)] c.style 0.03
      if (i.callAmt : ℚ) ≤ (i.stk : ℚ) * max_call_pct then
        let st1 := if st.vpip_this_hand then st else ⟨st.vpip_hands + 1, true⟩
        (.call i.callAmt, st1)
      else (.fold, st)
    else (.fold, st)

/-- Run a sequence of preflop decision points of one hand, threading the
VPIP state. -/
def omahaPreflopRun (c : OCtx) : OState → List PreIn → OState
  | st, [] => st
  | st, i :: is => omahaPreflopRun c (omahaPreflop c st i).2 is

/-- Inputs of one `OmahaPlayer._postflop` decision point; `r1`, `r2` are the
first and second `random.random()` draws available to this decision (the
policy consumes at most two, and the HTTP call consumes none). -/
structure PostIn where
  boardLen : ℕ
  callAmt : ℤ
  pot : ℤ
  stk : ℤ
  mnr : ℤ
  mxr : ℤ
  r1 : ℚ
  r2 : ℚ

/-- `OmahaPlayer._heuristic`: c-bet when unfaced, fold/raise/call mix when
facing a bet. -/
def omahaHeuristic (sd : OStyle) (i : PostIn) : OAct :=
  let cbet := sd.cbet
  let fold_cbet := sd.fold_cbet
  let postflop_agg := sd.postflop_agg.getD (sd.aggression * 0.4)
  if i.callAmt = 0 then
    if i.r1 < cbet ∧ i.mnr ≤ i.mxr then
      let sizing := 0.5 + (sd.raise_sizing.getD 0.75) * 0.25
      .raise (max i.mnr (min (pyInt ((i.pot : ℚ) * sizing)) i.mxr))
    else .call 0
  else if i.r1 < fold_cbet then .fold
  else if i.r2 < postflop_agg ∧ i.mnr ≤ i.mxr then
    .raise (max i.mnr (min (pyInt ((i.pot : ℚ) * 0.75)) i.mxr))
  else .call i.callAmt

/-- A parsed advisor recommendation as `OmahaPlayer._postflop` consumes it:
the (defaulted, lowercased later) action string and the optional integer
sizing hint. -/
structure ORec where
  action : String
  sizing : Option ℤ

/-- `OmahaPlayer._style_action`: style post-processing of an advisor
recommendation (the branch taken consumes at most the one draw `r1`). -/
def omahaStyleAction (c : OCtx) (a : String) (sizing : Option ℤ) (i : PostIn) : OAct :=
  let agg := c.sd.aggression
  if a = "fold" then
    if c.style = "lag" ∧ (i.callAmt : ℚ) ≤ (i.pot : ℚ) * 0.3 ∧ i.r1 < 0.3 then .call i.callAmt
    else .fold
  else if a = "call" ∨ a = "check" then
    if i.r1 < agg * 0.3 ∧ i.mnr ≤ i.mxr then
      .raise (max i.mnr (min (sizing.getD i.mnr) i.mxr))
    else .call i.callAmt
  else if a = "raise" ∨ a = "bet" then
    if c.style = "rock" ∧ agg < i.r1 then .call i.callAmt
    else if i.mnr ≤ i.mxr then
      .raise (max i.mnr (min (sizing.getD i.mnr) i.mxr))
    else .call i.callAmt
  else .call i.callAmt

/-- `OmahaPlayer._postflop`. `fast` is fast_mode; `oracle` is the outcome of
the advisor HTTP call (`none` = any failure: timeout, transport error, bad
payload). The call is only attempted on a board of three or more cards.
Returns the action, the `api_errors` increment and the `advisor_calls`
increment; no failure escapes to the caller. -/
def omahaPostflop (c : OCtx) (fast : Bool) (oracle : Option ORec) (i : PostIn) :
    OAct × ℕ × ℕ :=
  if fast then (omahaHeuristic c.sd i, 0, 0)
  else if 3 ≤ i.boardLen then
    match oracle with
    | some rc => (omahaStyleAction c rc.action.toLower rc.sizing i, 0, 1)
    | none => (omahaHeuristic c.sd i, 1, 0)
  else (omahaHeuristic c.sd i, 0, 0)

/-- Run the postflop decision points of a hand in oracle mode with every
advisor call failing, threading the `api_errors` counter. -/
def omahaPostflopRunFail (c : OCtx) : List PostIn → ℕ → List OAct × ℕ
  | [], e => ([], e)
  | i :: is, e =>
    let step := omahaPostflop c false none i
    let rest := omahaPostflopRunFail c is (e + step.2.1)
    (step.1 :: rest.1, rest.2)

/-- Run the postflop decision points of a hand in heuristic mode
(fast_mode, oracle disabled). -/
def omahaPostflopRunFast (c : OCtx) : List PostIn → List OAct
  | [] => []
  | i :: is => (omahaPostflop c true none i).1 :: omahaPostflopRunFast c is

/-! ## Style-based player (StyleBasedTestRunner.py, class StyleBasedPlayer) -/

/-- A STYLE_DEFINITIONS entry (the fields the decision code reads). -/
structure SStyleDef where
  threshold : ℚ
  vpip : ℚ
  aggression : ℚ

/-- STYLE_DEFINITIONS table. -/
def STYLE_DEFINITIONS : List (String × SStyleDef) :=
  [("rock", ⟨75, 0.15, 0.3⟩), ("tag", ⟨55, 0.25, 0.7⟩), ("lag", ⟨40, 0.38, 0.8⟩)]

/-- POSITION_MODIFIERS table. -/
def POSITION_MODIFIERS : List (String × ℚ) :=
  [("UTG",-15),("EP",-15),("MP",-8),("CO",0),
   ("BTN",12),("button",12),("SB",-5),("blind",-5),("BB",-2)]

/-- `StyleBasedPlayer._estimate_hand_score`: hole cards are PyPokerEngine
strings, suit first (`c[0]`) then rank (`c[1:]`). -/
def estimateHandScore (hole_card : List String) : ℚ :=
  let ranks := hole_card.map (fun c => c.drop 1)
  let suits := hole_card.map (fun c => c.take 1)
  if ranks.dedup.length < ranks.length then
    if "A" ∈ ranks ∨ "K" ∈ ranks then 90
    else if "Q" ∈ ranks ∨ "J" ∈ ranks then 60
    else 35
  else
    let is_suited := suits.dedup.length < suits.length
    let broadway_count := ranks.countP (fun r => (["A","K","Q","J","T"] : List String).contains r)
    if is_suited ∧ 2 ≤ broadway_count then 70
    else if is_suited then 55
    else if 2 ≤ broadway_count then 50
    else 25

/-- The legal-action set PyPokerEngine hands to `declare_action`: an optional
call action (with its amount) and an optional raise action (with its
min/max amounts). -/
structure VA where
  callAmt : Option ℤ
  raiseRange : Option (ℤ × ℤ)

/-- A well-formed legal-action set: when a raise action is offered its
bounds are ordered. -/
def legalVA (va : VA) : Prop :=
  ∀ mn mx : ℤ, va.raiseRange = some (mn, mx) → mn ≤ mx

instance (va : VA) : Decidable (legalVA va) :=
  decidable_of_iff (∀ p ∈ va.raiseRange, p.1 ≤ p.2) (by
    unfold legalVA
    constructor
    · intro hp mn mx hs
      exact hp (mn, mx) (by rw [hs]; rfl)
    · intro hall p hp
      exact hall p.1 p.2 (by rw [Option.mem_def] at hp; rw [hp]))

/-- A StyleBasedPlayer decision: PyPokerEngine action name plus amount. -/
inductive SActName
  | fold
  | call
  | raise
deriving DecidableEq

/-- `StyleBasedPlayer._preflop_action`: threshold entry with aggression-gated
raises, free or very cheap calls below threshold, otherwise fold. `r` is the
`random.random()` draw available (at most one is consumed). -/
def stylePreflop (style : String) (sdef : SStyleDef) (hole_card : List String)
    (pos : String) (va : VA) (r : ℚ) : SActName × ℤ :=
  let hand_score := estimateHandScore hole_card
  let adjusted := hand_score + lookupD POSITION_MODIFIERS pos 0
  let threshold := sdef.threshold
  let aggression := sdef.aggression
  let call_amount := va.callAmt.getD 0
  let entry : Option (SActName × ℤ) :=
    if threshold ≤ adjusted then
      match va.raiseRange with
      | some (mn, mx) =>
        if r < aggression then
          let raise_mult : ℚ :=
            if style = "rock" then 2.5 else if style = "tag" then 3.0 else 3.5
          let raise_amt := min (pyInt ((call_amount : ℚ) * raise_mult + 10)) mx
          some (.raise, max raise_amt mn)
        else if va.callAmt.isSome then some (.call, call_amount) else none
      | none => if va.callAmt.isSome then some (.call, call_amount) else none
    else none
  match entry with
  | some a => a
  | none =>
    if va.callAmt.isSome ∧ call_amount = 0 then (.call, 0)
    else if va.callAmt.isSome ∧ call_amount ≤ 10 ∧ threshold - 20 ≤ adjusted then
      (.call, call_amount)
    else (.fold, 0)

/-- An advisor response as `StyleBasedPlayer._postflop_action` consumes it:
defaulted action string, parsed confidence fraction, optional sizing hint. -/
structure Advice where
  action : String
  confidence : ℚ
  sizing : Option ℤ

/-- `StyleBasedPlayer._execute_action`: convert an advisor action to a
PyPokerEngine action against the legal-action set. -/
def styleExecuteAction (a : String) (sizing : Option ℤ) (va : VA) : SActName × ℤ :=
  if a = "fold" then (.fold, 0)
  else if a = "call" ∨ a = "check" then
    match va.callAmt with
    | some amt => (.call, amt)
    | none => (.fold, 0)
  else if a = "raise" ∨ a = "bet" then
    match va.raiseRange with
    | some (mn, mx) => (.raise, max mn (min (sizing.getD mn) mx))
    | none =>
      match va.callAmt with
      | some amt => (.call, amt)
      | none => (.fold, 0)
  else
    match va.callAmt with
    | some amt => if amt = 0 then (.call, 0) else (.fold, 0)
    | none => (.fold, 0)

/-- `StyleBasedPlayer._apply_style_adjustment`: rock downgrades raises, lag
upgrades calls, tag enforces high-confidence raises, then the advisor action
is executed. `r` is the draw available (each branch consumes at most one). -/
def styleApplyAdjustment (style : String) (sdef : SStyleDef) (advisor_action : String)
    (confidence : ℚ) (sizing : Option ℤ) (va : VA) (r : ℚ) : SActName × ℤ :=
  let aggression := sdef.aggression
  let rock_adj : Option (SActName × ℤ) :=
    if style = "rock" ∧ (advisor_action = "raise" ∨ advisor_action = "bet") then
      if confidence < 0.7 ∨ aggression < r then
        match va.callAmt with
        | some amt => some (.call, amt)
        | none => none
      else none
    else none
  match rock_adj with
  | some a => a
  | none =>
    let lag_adj : Option (SActName × ℤ) :=
      if style = "lag" ∧ advisor_action = "call" then
        if 0.4 < confidence ∧ r < aggression then
          match va.raiseRange with
          | some (mn, mx) => some (.raise, max (min (sizing.getD mn) mx) mn)
          | none => none
        else none
      else none
    match lag_adj with
    | some a => a
    | none =>
      let tag_adj : Option (SActName × ℤ) :=
        if style = "tag" ∧ (advisor_action = "raise" ∨ advisor_action = "bet")
            ∧ 0.6 < confidence then
          match va.raiseRange with
          | some (mn, mx) => some (.raise, max mn (min (sizing.getD mn) mx))
          | none => none
        else none
      match tag_adj with
      | some a => a
      | none => styleExecuteAction advisor_action sizing va

/-- `StyleBasedPlayer._postflop_action`: on a successful advisor response
apply the style adjustment to the lowercased action; on any failure
(`none`) the recovery is check-if-free-else-fold. -/
def stylePostflop (style : String) (sdef : SStyleDef) (resp : Option Advice)
    (va : VA) (r : ℚ) : SActName × ℤ :=
  match resp with
  | some adv => styleApplyAdjustment style sdef adv.action.toLower adv.confidence adv.sizing va r
  | none =>
    match va.callAmt with
    | some amt => if amt = 0 then (.call, 0) else (.fold, 0)
    | none => (.fold, 0)

/-- Legality of a StyleBasedPlayer decision against the legal-action set:
folds carry amount 0, calls the exact call amount, raises an amount within
the offered raise bounds. -/
def styleActionLegal (va : VA) : SActName × ℤ → Prop
  | (.fold, amt) => amt = 0
  | (.call, amt) => va.callAmt = some amt
  | (.raise, amt) => ∃ mn mx : ℤ, va.raiseRange = some (mn, mx) ∧ mn ≤ amt ∧ amt ≤ mx

/-- Legality of an OmahaPlayer decision: calls return exactly the legal call
amount, raises lie within the legal raise bounds (folds are the -1
sentinel, committing no chips). -/
def omahaActionLegal (callAmt mnr mxr : ℤ) : OAct → Prop
  | .fold => True
  | .call amt => amt = callAmt
  | .raise amt => mnr ≤ amt ∧ amt ≤ mxr

/-! ## Statistical planner (StyleBasedTestRunner.py) -/

/-- `calculate_sample_size_needed`: two-sample mean-comparison sample size,
rounded up. -/
def calculate_sample_size_needed (expected_effect_bb100 std_dev_bb100 confidence power : ℚ) : ℤ :=
  let z_alpha : ℚ := if confidence = 0.95 then 1.96 else if confidence = 0.99 then 2.58 else 1.645
  let z_beta : ℚ := if power = 0.80 then 0.84 else if power = 0.90 then 1.28 else 0.52
  Int.ceil (2 * ((z_alpha + z_beta) * std_dev_bb100 / expected_effect_bb100) ^ 2)

/-- Sample mean of a list of per-hand profits. -/
def sampleMean (l : List ℚ) : ℚ := l.sum / l.length

/-- Bessel-corrected sample variance, as computed in `analyze_results` for
`len(records) > 1`. -/
def sampleVariance (l : List ℚ) : ℚ :=
  (l.map (fun x => (x - sampleMean l) ^ 2)).sum / ((l.length : ℚ) - 1)

/-- `SessionStats.bb_per_100`: profit in big blinds (blind 20) per 100 hands. -/
def bb_per_100 (total_profit : ℚ) (hands_played : ℕ) : ℚ :=
  if hands_played = 0 then 0 else (total_profit / 20) / ((hands_played : ℚ) / 100)

/-- The 95% confidence interval of `analyze_results`, in BB/100 units: mean
± 1.96 standard errors when more than one sample exists, otherwise the
degenerate point interval at the running `bb_per_100` figure. -/
noncomputable def confidenceIntervalBB100 (profits : List ℚ) (bb100 : ℚ) : ℝ × ℝ :=
  if 1 < profits.length then
    let m : ℝ := ((sampleMean profits : ℚ) : ℝ)
    let se : ℝ := Real.sqrt ((sampleVariance profits : ℚ) : ℝ) / Real.sqrt (profits.length : ℝ)
    ((m - 1.96 * se) / 20 * 100, (m + 1.96 * se) / 20 * 100)
  else (((bb100 : ℚ) : ℝ), ((bb100 : ℚ) : ℝ))

/-! ## Trajectory tracker (TrajectoryAnalyzer.py) -/

/-- The input series of `PlayerTrajectory.compute_metrics`. -/
structure PlayerTrajectory where
  initial_stack : ℤ
  stack_history : List ℤ
  hand_results : List ℤ

/-- The derived metrics of a trajectory, with the dataclass zero defaults. -/
structure TrajectoryMetrics where
  final_stack : ℤ := 0
  total_profit : ℤ := 0
  peak_stack : ℤ := 0
  min_stack : ℤ := 0
  max_drawdown : ℤ := 0
  max_drawdown_pct : ℚ := 0
  volatility : ℝ := 0
  sharpe_ratio : ℝ := 0
  longest_win_streak : ℕ := 0
  longest_lose_streak : ℕ := 0
  hands_won : ℕ := 0
  hands_lost : ℕ := 0

/-- The drawdown loop of `compute_metrics`: scan the stack history keeping
the running peak; returns (final running peak, max drawdown). -/
def ddScan : ℤ → ℤ → List ℤ → ℤ × ℤ
  | peak, max_dd, [] => (peak, max_dd)
  | peak, max_dd, stack :: rest =>
    let peak2 := if peak < stack then stack else peak
    let dd := peak2 - stack
    ddScan peak2 (if max_dd < dd then dd else max_dd) rest

/-- Mean of the per-hand results. -/
def resultsMean (l : List ℤ) : ℚ := (l.map (fun x => (x : ℚ))).sum / l.length

/-- Population variance (division by n) of the per-hand results. -/
def populationVariance (l : List ℤ) : ℚ :=
  (l.map (fun x => ((x : ℚ) - resultsMean l) ^ 2)).sum / l.length

/-- The variance `compute_metrics` actually uses: population variance when
there are at least two results, else the zero default. -/
def varianceOfResults (l : List ℤ) : ℚ :=
  if 1 < l.length then populationVariance l else 0

/-- Population standard deviation of the per-hand results (the quantity the
specification calls volatility). -/
noncomputable def populationStdDev (l : List ℤ) : ℝ :=
  Real.sqrt ((populationVariance l : ℚ) : ℝ)

/-- The streak loop of `compute_metrics`. State: current streak, the
`is_winning` tristate (Python None/True/False), best win streak, best lose
streak, hands won, hands lost. Zero-profit hands neither extend nor break a
streak. -/
def streakScan : ℕ → Option Bool → ℕ → ℕ → ℕ → ℕ → List ℤ → ℕ × ℕ × ℕ × ℕ
  | _, _, maxw, maxl, won, lost, [] => (maxw, maxl, won, lost)
  | cur, isw, maxw, maxl, won, lost, r :: rs =>
    if 0 < r then
      let cur2 := if isw = some true then cur + 1 else 1
      streakScan cur2 (some true) (max maxw cur2) maxl (won + 1) lost rs
    else if r < 0 then
      let cur2 := if isw = some false then cur + 1 else 1
      streakScan cur2 (some false) maxw (max maxl cur2) won (lost + 1) rs
    else streakScan cur isw maxw maxl won lost rs

/-- `PlayerTrajectory.compute_metrics`. On an empty stack history every
field keeps its zero default. The source guards the Sharpe ratio on
`volatility > 0`; volatility being √variance with variance ≥ 0, that guard
holds exactly when the variance is positive, which is how it is written
here. -/
noncomputable def compute_metrics (t : PlayerTrajectory) : TrajectoryMetrics :=
  match t.stack_history with
  | [] => {}
  | x :: xs =>
    let final_stack := xs.getLastD x
    let total_profit := final_stack - t.initial_stack
    let scan := ddScan t.initial_stack 0 (x :: xs)
    let variance := varianceOfResults t.hand_results
    let volatility : ℝ := Real.sqrt ((variance : ℚ) : ℝ)
    let n := t.hand_results.length
    let streaks := streakScan 0 none 0 0 0 0 t.hand_results
    { final_stack := final_stack
      total_profit := total_profit
      peak_stack := xs.foldl max x
      min_stack := xs.foldl min x
      max_drawdown := scan.2
      max_drawdown_pct := if 0 < scan.1 then (scan.2 : ℚ) / (scan.1 : ℚ) * 100 else 0
      volatility := volatility
      sharpe_ratio :=
        if 0 < variance ∧ 0 < n then (((total_profit : ℚ) / (n : ℚ) : ℚ) : ℝ) / volatility else 0
      longest_win_streak := streaks.1
      longest_lose_streak := streaks.2.1
      hands_won := streaks.2.2.1
      hands_lost := streaks.2.2.2 }

/-! ## Head-to-head aggregation (HandDataCapture.py, generate_session_summary) -/

/-- The PlayerHandResult fields the aggregator reads. -/
structure PHR where
  name : String
  strategy : String
  stack_change : ℤ

/-- Point update of the head-to-head defaultdict. -/
def h2hUpdate (f : String → String → ℤ) (s1 s2 : String) (v : ℤ) : String → String → ℤ :=
  fun a b => if a = s1 ∧ b = s2 then f a b + v else f a b

/-- The inner opponent loop: for one player of a hand, add their stack
change against every differently-named player of the hand. -/
def h2hAddPlayer (players : List PHR) (p : PHR) (f : String → String → ℤ) :
    String → String → ℤ :=
  players.foldl
    (fun g o => if o.name ≠ p.name then h2hUpdate g p.strategy o.strategy p.stack_change else g)
    f

/-- The player loop over one hand. -/
def h2hAddHand (f : String → String → ℤ) (players : List PHR) : String → String → ℤ :=
  players.foldl (fun g p => h2hAddPlayer players p g) f

/-- `generate_session_summary`: the head-to-head profit matrix of a session,
folded hand by hand from the zero matrix. -/
def head_to_head (hands : List (List PHR)) : String → String → ℤ :=
  hands.foldl h2hAddHand (fun _ _ => 0)

/-- What the head-to-head matrix actually computes, in closed form: for each
hand, each player of strategy `s1` contributes their stack change once per
differently-named player of strategy `s2` in that hand. -/
def h2hClosedForm (hands : List (List PHR)) (s1 s2 : String) : ℤ :=
  (hands.map (fun players =>
    (players.map (fun p =>
      (players.map (fun o =>
        if o.name ≠ p.name ∧ s1 = p.strategy ∧ s2 = o.strategy
        then p.stack_change else 0)).sum)).sum)).sum

/-- Modelled from the claim's words, for comparison with `head_to_head`:
for each ordered pair of distinct styles present together in a hand, sum
that hand's stack delta of the first style over those hands; no entry for a
pair of identical styles. -/
def specHeadToHead (hands : List (List PHR)) (s1 s2 : String) : ℤ :=
  if s1 = s2 then 0
  else
    ((hands.filter (fun players =>
        players.any (fun p => p.strategy == s1) && players.any (fun p => p.strategy == s2))).map
      (fun players =>
        ((players.filter (fun p => p.strategy == s1)).map (fun p => p.stack_change)).sum)).sum

/-- A three-player session (one hand) in which two players share a style:
the aggregator double-counts the tag player's delta against the two rock
opponents and produces a rock-versus-rock diagonal entry. -/
def h2hDemoSession : List (List PHR) :=
  [[⟨"Alice", "tag", 10⟩, ⟨"Bob", "rock", -4⟩, ⟨"Carol", "rock", -6⟩]]

end PokerScenario

namespace PokerScenario

/-- Claim C2: for every list of hole cards (empty and malformed included) the
scorer stays within [0, 100], and the empty list scores exactly the neutral 25. -/
theorem score_omaha_hand_bounds (hole_cards : List PyCard) :
    0 ≤ score_omaha_hand hole_cards ∧ score_omaha_hand hole_cards ≤ 100 ∧
    score_omaha_hand ([] : List PyCard) = 25 := by
  refine ⟨?_, ?_, rfl⟩ <;> unfold score_omaha_hand
  · split
    · norm_num
    · split
      · norm_num
      · exact le_min (by norm_num) (le_max_left 0 _)
  · split
    · norm_num
    · split
      · norm_num
      · exact min_le_left 100 _

/-- Clamping with `max mn (min x mx)` lands in `[mn, mx]` when `mn ≤ mx`. -/
theorem clampA_bounds (mn mx x : ℤ) (h : mn ≤ mx) :
    mn ≤ max mn (min x mx) ∧ max mn (min x mx) ≤ mx :=
  ⟨le_max_left _ _, max_le h (min_le_right _ _)⟩

/-- Clamping with `max (min x mx) mn` lands in `[mn, mx]` when `mn ≤ mx`. -/
theorem clampB_bounds (mn mx x : ℤ) (h : mn ≤ mx) :
    mn ≤ max (min x mx) mn ∧ max (min x mx) mn ≤ mx :=
  ⟨le_max_right _ _, max_le (min_le_right _ _) h⟩

/-- Clamping with `max mn (min mx x)` lands in `[mn, mx]` when `mn ≤ mx`. -/
theorem clampC_bounds (mn mx x : ℤ) (h : mn ≤ mx) :
    mn ≤ max mn (min mx x) ∧ max mn (min mx x) ≤ mx :=
  ⟨le_max_left _ _, max_le h (min_le_left _ _)⟩

/-- One `_postflop` step in oracle mode with a failing call produces the
heuristic action and bumps the error counter exactly when a call was
attempted (board of three or more cards). -/
theorem omahaPostflop_fail_step (c : OCtx) (i : PostIn) :
    omahaPostflop c false none i =
      (omahaHeuristic c.sd i, (if 3 ≤ i.boardLen then 1 else 0), 0) := by
  simp only [omahaPostflop, Bool.false_eq_true, if_false]
  by_cases h : 3 ≤ i.boardLen <;> simp [h]

/-- One `_postflop` step in fast_mode is the heuristic with no counter
movement. -/
theorem omahaPostflop_fast_step (c : OCtx) (o : Option ORec) (i : PostIn) :
    omahaPostflop c true o i = (omahaHeuristic c.sd i, 0, 0) := by
  simp [omahaPostflop]

/-- `_execute_action` only emits legal actions. -/
theorem styleExecuteAction_legal (a : String) (sizing : Option ℤ) (va : VA)
    (h : legalVA va) : styleActionLegal va (styleExecuteAction a sizing va) := by
  obtain ⟨co, ro⟩ := va
  rcases ro with _ | ⟨mn, mx⟩
  · rcases co with _ | camt <;>
      simp only [styleExecuteAction] <;> split_ifs <;>
      first
        | rfl
        | simp_all [styleActionLegal]
  · have hb : mn ≤ mx := h mn mx rfl
    rcases co with _ | camt <;>
      simp only [styleExecuteAction] <;> split_ifs <;>
      first
        | rfl
        | exact ⟨mn, mx, rfl, by omega, by omega⟩
        | simp_all [styleActionLegal]

/-- `_apply_style_adjustment` only emits legal actions. -/
theorem styleApplyAdjustment_legal (style : String) (sdef : SStyleDef)
    (advisor_action : String) (confidence : ℚ) (sizing : Option ℤ) (va : VA) (r : ℚ)
    (h : legalVA va) :
    styleActionLegal va (styleApplyAdjustment style sdef advisor_action confidence sizing va r) := by
  obtain ⟨co, ro⟩ := va
  rcases ro with _ | ⟨mn, mx⟩
  · rcases co with _ | camt <;>
      simp only [styleApplyAdjustment] <;> split_ifs <;>
      first
        | rfl
        | exact styleExecuteAction_legal _ _ _ h
        | simp_all [styleActionLegal]
  · have hb : mn ≤ mx := h mn mx rfl
    rcases co with _ | camt <;>
      simp only [styleApplyAdjustment] <;> split_ifs <;>
      first
        | rfl
        | exact styleExecuteAction_legal _ _ _ h
        | exact ⟨mn, mx, rfl, by omega, by omega⟩
        | simp_all [styleActionLegal]

/-- `_postflop_action` only emits legal actions, on advisor success and on
advisor failure alike. -/
theorem stylePostflop_legal (style : String) (sdef : SStyleDef) (resp : Option Advice)
    (va : VA) (r : ℚ) (h : legalVA va) :
    styleActionLegal va (stylePostflop style sdef resp va r) := by
  rcases resp with _ | adv
  · obtain ⟨co, ro⟩ := va
    rcases co with _ | camt
    · rfl
    · simp only [stylePostflop]
      split_ifs <;> first | rfl | simp_all [styleActionLegal]
  · exact styleApplyAdjustment_legal _ _ _ _ _ _ _ h

/-- `_preflop_action` only emits legal actions. -/
theorem stylePreflop_legal (style : String) (sdef : SStyleDef) (hole_card : List String)
    (pos : String) (va : VA) (r : ℚ) (h : legalVA va) :
    styleActionLegal va (stylePreflop style sdef hole_card pos va r) := by
  obtain ⟨co, ro⟩ := va
  rcases ro with _ | ⟨mn, mx⟩
  · rcases co with _ | camt <;>
      simp only [stylePreflop] <;> split_ifs <;>
      first
        | rfl
        | simp_all [styleActionLegal]
  · have hb : mn ≤ mx := h mn mx rfl
    rcases co with _ | camt <;>
      simp only [stylePreflop] <;> split_ifs <;>
      first
        | rfl
        | exact ⟨mn, mx, rfl, by omega, by omega⟩
        | simp_all [styleActionLegal]

/-- `_heuristic` only emits legal actions (its raise branches are guarded by
`mnr ≤ mxr` in the source, so no legality hypothesis is needed). -/
theorem omahaHeuristic_legal (sd : OStyle) (i : PostIn) :
    omahaActionLegal i.callAmt i.mnr i.mxr (omahaHeuristic sd i) := by
  simp only [omahaHeuristic]
  split_ifs <;>
    first
      | trivial
      | (refine ⟨?_, ?_⟩ <;> omega)
      | simp_all [omahaActionLegal]

/-- `_style_action` only emits legal actions. -/
theorem omahaStyleAction_legal (c : OCtx) (a : String) (sizing : Option ℤ) (i : PostIn) :
    omahaActionLegal i.callAmt i.mnr i.mxr (omahaStyleAction c a sizing i) := by
  simp only [omahaStyleAction]
  split_ifs <;>
    first
      | trivial
      | (refine ⟨?_, ?_⟩ <;> omega)
      | simp_all [omahaActionLegal]

/-- `_preflop` only emits legal actions. -/
theorem omahaPreflop_legal (c : OCtx) (st : OState) (i : PreIn) :
    omahaActionLegal i.callAmt i.mnr i.mxr (omahaPreflop c st i).1 := by
  simp only [omahaPreflop]
  split_ifs <;>
    first
      | trivial
      | (refine ⟨?_, ?_⟩ <;> omega)
      | simp_all [omahaActionLegal]

/-- `_postflop` only emits legal actions in every mode and on every oracle
outcome. -/
theorem omahaPostflop_legal (c : OCtx) (fast : Bool) (oracle : Option ORec) (i : PostIn) :
    omahaActionLegal i.callAmt i.mnr i.mxr (omahaPostflop c fast oracle i).1 := by
  cases fast
  · simp only [omahaPostflop, Bool.false_eq_true, if_false]
    split_ifs
    · cases oracle with
      | none => exact omahaHeuristic_legal c.sd i
      | some rc => exact omahaStyleAction_legal c rc.action.toLower rc.sizing i
    · exact omahaHeuristic_legal c.sd i
  · rw [omahaPostflop_fast_step]
    exact omahaHeuristic_legal c.sd i

/-- Claim C1: every decision of the decision policy — preflop or postflop,
any style, any legal-action set — is a fold, call or raise whose amount is
legal: style-based folds carry amount 0, calls carry exactly the legal call
amount, raises lie within [minRaise, maxRaise]; the Omaha policy's calls
return exactly the call amount and its raises lie within the legal bounds
(its folds are the engine's -1 sentinel, committing no chips). -/
theorem decision_policy_action_legality :
    (∀ (style : String) (sdef : SStyleDef) (hole_card : List String) (pos : String)
        (va : VA) (r : ℚ), legalVA va →
      styleActionLegal va (stylePreflop style sdef hole_card pos va r)) ∧
    (∀ (style : String) (sdef : SStyleDef) (resp : Option Advice) (va : VA) (r : ℚ),
        legalVA va →
      styleActionLegal va (stylePostflop style sdef resp va r)) ∧
    (∀ (c : OCtx) (st : OState) (i : PreIn),
      omahaActionLegal i.callAmt i.mnr i.mxr (omahaPreflop c st i).1) ∧
    (∀ (c : OCtx) (fast : Bool) (oracle : Option ORec) (i : PostIn),
      omahaActionLegal i.callAmt i.mnr i.mxr (omahaPostflop c fast oracle i).1) :=
  ⟨fun style sdef hole pos va r h => stylePreflop_legal style sdef hole pos va r h,
   fun style sdef resp va r h => stylePostflop_legal style sdef resp va r h,
   fun c st i => omahaPreflop_legal c st i,
   fun c fast oracle i => omahaPostflop_legal c fast oracle i⟩

/-- Witness for C1 at a concrete legal-action set, hand and draw. -/
theorem decision_policy_action_legality_witness :
    legalVA ⟨some 20, some (40, 200)⟩ ∧
    styleActionLegal ⟨some 20, some (40, 200)⟩
      (stylePreflop "tag" ⟨55, 0.25, 0.7⟩ ["SA", "HA"] "BTN" ⟨some 20, some (40, 200)⟩ (1/2)) ∧
    omahaActionLegal 10 30 150
      (omahaPreflop ⟨0, "tag", ⟨0.72, 0.65, 0.62, 0.38, some 0.75, some 0.35⟩, 52⟩
        ⟨0, false⟩
        ⟨[.card "A" "s", .card "A" "h", .card "K" "s", .card "Q" "h"],
          10, 30, 200, 30, 150, 6, 0, 1/2⟩).1 :=
  ⟨by decide,
   decision_policy_action_legality.1 "tag" ⟨55, 0.25, 0.7⟩ ["SA", "HA"] "BTN"
     ⟨some 20, some (40, 200)⟩ (1/2) (by decide),
   decision_policy_action_legality.2.2.1 ⟨0, "tag", ⟨0.72, 0.65, 0.62, 0.38, some 0.75, some 0.35⟩, 52⟩
     ⟨0, false⟩
     ⟨[.card "A" "s", .card "A" "h", .card "K" "s", .card "Q" "h"],
       10, 30, 200, 30, 150, 6, 0, 1/2⟩⟩

/-- Claim C3: over a full hand in which every advisory call fails, the
oracle-mode postflop decision sequence is exactly the heuristic-mode
(fast_mode) sequence from the same states and draws; no failure escapes (a
decision is produced for every state) and `api_errors` grows by one per
attempted (and failed) call. -/
theorem oracle_failure_fallback_equivalence (c : OCtx) (states : List PostIn) (e0 : ℕ) :
    (omahaPostflopRunFail c states e0).1 = omahaPostflopRunFast c states ∧
    (omahaPostflopRunFail c states e0).2 =
      e0 + states.countP (fun i => decide (3 ≤ i.boardLen)) ∧
    (omahaPostflopRunFail c states e0).1.length = states.length := by
  induction states generalizing e0 with
  | nil => simp [omahaPostflopRunFail, omahaPostflopRunFast]
  | cons i is ih =>
    obtain ⟨ih1, ih2, ih3⟩ := ih (e0 + (if 3 ≤ i.boardLen then 1 else 0))
    simp only [omahaPostflopRunFail, omahaPostflopRunFast, omahaPostflop_fail_step,
      List.countP_cons, List.length_cons, omahaPostflop_fast_step]
    refine ⟨by rw [ih1], ?_, by rw [ih3]⟩
    rw [ih2]
    by_cases h : 3 ≤ i.boardLen <;> simp [h] <;> omega

/-- Claim C4: on the reference trajectory (initial stack 1000, stack history
[1000, 1200, 900, 1500, 1400], hand results [200, -300, 600, -100]) the
metrics are final stack 1400, total profit 400, peak 1500, running-peak max
drawdown 300, and volatility the population standard deviation of the
per-hand results. -/
theorem trajectory_reference_metrics :
    (compute_metrics ⟨1000, [1000, 1200, 900, 1500, 1400], [200, -300, 600, -100]⟩).final_stack
        = 1400 ∧
    (compute_metrics ⟨1000, [1000, 1200, 900, 1500, 1400], [200, -300, 600, -100]⟩).total_profit
        = 400 ∧
    (compute_metrics ⟨1000, [1000, 1200, 900, 1500, 1400], [200, -300, 600, -100]⟩).peak_stack
        = 1500 ∧
    (compute_metrics ⟨1000, [1000, 1200, 900, 1500, 1400], [200, -300, 600, -100]⟩).max_drawdown
        = 300 ∧
    (compute_metrics ⟨1000, [1000, 1200, 900, 1500, 1400], [200, -300, 600, -100]⟩).volatility
        = populationStdDev [200, -300, 600, -100] := by
  refine ⟨by decide, by decide, by decide, by decide, ?_⟩
  rfl

/-- One `_preflop` step either leaves the VPIP state alone, or (only when
the per-hand flag is down) counts one entry and sets the flag. -/
theorem omahaPreflop_vpip_step (c : OCtx) (st : OState) (i : PreIn) :
    (st.vpip_this_hand = true → (omahaPreflop c st i).2 = st) ∧
    (st.vpip_this_hand = false →
      (omahaPreflop c st i).2 = st ∨
      (omahaPreflop c st i).2 = ⟨st.vpip_hands + 1, true⟩) := by
  cases hst : st.vpip_this_hand <;>
    constructor <;>
    intro h <;>
    simp only [omahaPreflop, hst, if_true, if_false, Bool.false_eq_true] at * <;>
    split_ifs <;> simp_all

/-- Folding any sequence of preflop decisions grows the VPIP counter by at
most one once the flag is down, and not at all while it is up. -/
theorem omahaPreflopRun_vpip (c : OCtx) (inputs : List PreIn) :
    ∀ st : OState,
      (st.vpip_this_hand = false →
        (omahaPreflopRun c st inputs).vpip_hands ≤ st.vpip_hands + 1) ∧
      (st.vpip_this_hand = true →
        (omahaPreflopRun c st inputs).vpip_hands ≤ st.vpip_hands) := by
  induction inputs with
  | nil =>
    intro st
    simp only [omahaPreflopRun]
    exact ⟨fun _ => Nat.le_succ _, fun _ => le_refl _⟩
  | cons i is ih =>
    intro st
    obtain ⟨step_t, step_f⟩ := omahaPreflop_vpip_step c st i
    constructor <;> intro h
    · rcases step_f h with h2 | h2 <;>
        simp only [omahaPreflopRun, h2]
      · exact (ih st).1 h
      · exact (ih ⟨st.vpip_hands + 1, true⟩).2 rfl
    · simp only [omahaPreflopRun, step_t h]
      exact (ih st).2 h

/-- Claim C5: within a single hand the voluntary-participation counter is
incremented at most once, whatever the number of preflop decision points
and whichever entry branch fires, and the per-hand flag is reset by
`new_hand`. -/
theorem vpip_at_most_once_per_hand (c : OCtx) (s0 : OState) (inputs : List PreIn) :
    (omahaPreflopRun c (new_hand s0) inputs).vpip_hands ≤ s0.vpip_hands + 1 ∧
    (new_hand s0).vpip_this_hand = false := by
  exact ⟨(omahaPreflopRun_vpip c inputs (new_hand s0)).1 rfl, rfl⟩

/-- Claim C6: the required sample size is `2*((z_conf+z_power)*stdDev/effect)^2`
rounded up, with z-values 1.96/2.58 for 95%/99% confidence and 0.84/1.28
for 80%/90% power; in particular (effect 5, stdDev 100, 95%, 80%) yields
the ceiling of `2*((1.96+0.84)*100/5)^2` = 6272. -/
theorem required_sample_size_formula (effect stdDev : ℚ) :
    calculate_sample_size_needed effect stdDev 0.95 0.80 =
      Int.ceil (2 * ((1.96 + 0.84) * stdDev / effect) ^ 2) ∧
    calculate_sample_size_needed effect stdDev 0.95 0.90 =
      Int.ceil (2 * ((1.96 + 1.28) * stdDev / effect) ^ 2) ∧
    calculate_sample_size_needed effect stdDev 0.99 0.80 =
      Int.ceil (2 * ((2.58 + 0.84) * stdDev / effect) ^ 2) ∧
    calculate_sample_size_needed effect stdDev 0.99 0.90 =
      Int.ceil (2 * ((2.58 + 1.28) * stdDev / effect) ^ 2) ∧
    calculate_sample_size_needed 5 100 0.95 0.80 = 6272 := by
  refine ⟨?_, ?_, ?_, ?_, ?_⟩ <;>
    simp only [calculate_sample_size_needed] <;>
    norm_num

/-! ### Claim C7 — confidence interval brackets the mean -/

/-- Claim C7: for every non-empty sample set, the interval mean ± 1.96
standard errors (reported in BB/100, i.e. scaled by 5) brackets the sample
mean, and a single-element sample collapses it to a point. -/
theorem confidence_interval_brackets_mean (profits : List ℚ) (h : profits ≠ []) :
    (confidenceIntervalBB100 profits (bb_per_100 profits.sum profits.length)).1
      ≤ 5 * ((sampleMean profits : ℚ) : ℝ) ∧
    5 * ((sampleMean profits : ℚ) : ℝ)
      ≤ (confidenceIntervalBB100 profits (bb_per_100 profits.sum profits.length)).2 ∧
    (profits.length = 1 →
      (confidenceIntervalBB100 profits (bb_per_100 profits.sum profits.length)).1 =
        (confidenceIntervalBB100 profits (bb_per_100 profits.sum profits.length)).2) := by
  by_cases hlen : 1 < profits.length
  · have hse : (0 : ℝ) ≤
        Real.sqrt ((sampleVariance profits : ℚ) : ℝ) / Real.sqrt (profits.length : ℝ) :=
      div_nonneg (Real.sqrt_nonneg _) (Real.sqrt_nonneg _)
    simp only [confidenceIntervalBB100, if_pos hlen]
    refine ⟨by nlinarith, by nlinarith, fun h1 => by omega⟩
  · have h1 : profits.length = 1 := by
      have := List.length_pos.mpr h
      omega
    obtain ⟨x, hx⟩ := List.length_eq_one.mp h1
    subst hx
    have keyq : bb_per_100 ([x] : List ℚ).sum ([x] : List ℚ).length = 5 * sampleMean [x] := by
      simp only [bb_per_100, sampleMean, List.sum_cons, List.sum_nil, List.length_singleton]
      norm_num
      ring
    rw [show confidenceIntervalBB100 [x] (bb_per_100 ([x] : List ℚ).sum ([x] : List ℚ).length)
        = (((5 * sampleMean [x] : ℚ) : ℝ), ((5 * sampleMean [x] : ℚ) : ℝ)) by
      rw [keyq]
      simp [confidenceIntervalBB100]]
    push_cast
    exact ⟨le_refl _, le_refl _, fun _ => rfl⟩

/-- Witness for C7 at the concrete two-element sample [3, 5]. -/
theorem confidence_interval_brackets_mean_witness :
    (([3, 5] : List ℚ) ≠ []) ∧
    ((confidenceIntervalBB100 [3, 5] (bb_per_100 ([3, 5] : List ℚ).sum ([3, 5] : List ℚ).length)).1
        ≤ 5 * ((sampleMean [3, 5] : ℚ) : ℝ) ∧
      5 * ((sampleMean [3, 5] : ℚ) : ℝ)
        ≤ (confidenceIntervalBB100 [3, 5] (bb_per_100 ([3, 5] : List ℚ).sum ([3, 5] : List ℚ).length)).2 ∧
      (([3, 5] : List ℚ).length = 1 →
        (confidenceIntervalBB100 [3, 5] (bb_per_100 ([3, 5] : List ℚ).sum ([3, 5] : List ℚ).length)).1 =
          (confidenceIntervalBB100 [3, 5] (bb_per_100 ([3, 5] : List ℚ).sum ([3, 5] : List ℚ).length)).2)) :=
  ⟨by simp, confidence_interval_brackets_mean [3, 5] (by simp)⟩

/-! ### Claim C8 — head-to-head attribution -/

/-- Pointwise effect of one head-to-head dict update. -/
theorem h2hUpdate_apply (f : String → String → ℤ) (a b : String) (v : ℤ) (s1 s2 : String) :
    h2hUpdate f a b v s1 s2 = f s1 s2 + (if s1 = a ∧ s2 = b then v else 0) := by
  unfold h2hUpdate
  split_ifs <;> simp

/-- Pointwise effect of the opponent loop for one player. -/
theorem h2hOppFold_apply (l : List PHR) (p : PHR) :
    ∀ (f : String → String → ℤ) (s1 s2 : String),
    (l.foldl
      (fun g o => if o.name ≠ p.name then h2hUpdate g p.strategy o.strategy p.stack_change else g)
      f) s1 s2
      = f s1 s2 +
        (l.map (fun o =>
          if o.name ≠ p.name ∧ s1 = p.strategy ∧ s2 = o.strategy
          then p.stack_change else 0)).sum := by
  induction l with
  | nil => intro f s1 s2; simp
  | cons o os ih =>
    intro f s1 s2
    simp only [List.foldl_cons, List.map_cons, List.sum_cons]
    rw [ih]
    by_cases hn : o.name = p.name <;>
      by_cases hs1 : s1 = p.strategy <;>
      by_cases hs2 : s2 = o.strategy <;>
      simp [hn, hs1, hs2, h2hUpdate_apply] <;>
      ring

/-- Pointwise effect of the opponent loop, stated for `h2hAddPlayer`. -/
theorem h2hAddPlayer_apply (players : List PHR) (p : PHR) (f : String → String → ℤ)
    (s1 s2 : String) :
    h2hAddPlayer players p f s1 s2
      = f s1 s2 +
        (players.map (fun o =>
          if o.name ≠ p.name ∧ s1 = p.strategy ∧ s2 = o.strategy
          then p.stack_change else 0)).sum :=
  h2hOppFold_apply players p f s1 s2

/-- Pointwise effect of the player loop over one hand. -/
theorem h2hHandFold_apply (l : List PHR) (players : List PHR) :
    ∀ (f : String → String → ℤ) (s1 s2 : String),
    (l.foldl (fun g p => h2hAddPlayer players p g) f) s1 s2
      = f s1 s2 +
        (l.map (fun p =>
          (players.map (fun o =>
            if o.name ≠ p.name ∧ s1 = p.strategy ∧ s2 = o.strategy
            then p.stack_change else 0)).sum)).sum := by
  induction l with
  | nil => intro f s1 s2; simp
  | cons p ps ih =>
    intro f s1 s2
    simp only [List.foldl_cons, List.map_cons, List.sum_cons]
    rw [ih, h2hAddPlayer_apply]
    ring

/-- Pointwise effect of the hand loop. -/
theorem h2hHandsFold_apply (hands : List (List PHR)) :
    ∀ (f : String → String → ℤ) (s1 s2 : String),
    (hands.foldl h2hAddHand f) s1 s2 = f s1 s2 + h2hClosedForm hands s1 s2 := by
  induction hands with
  | nil => intro f s1 s2; simp [h2hClosedForm]
  | cons hand rest ih =>
    intro f s1 s2
    simp only [List.foldl_cons, h2hClosedForm, List.map_cons, List.sum_cons]
    rw [ih]
    unfold h2hAddHand
    rw [h2hHandFold_apply]
    simp only [h2hClosedForm]
    ring

/-- Counterexample to claim C8: in a one-hand session with a tag player
(delta +10) against two rock players, the aggregator credits the tag player
with +20 against rock (one credit per rock opponent), not the +10 the claim
predicts, and it produces a -10 rock-versus-rock diagonal entry though the
claim says identical-style pairs get no entry. -/
theorem head_to_head_counterexample :
    head_to_head h2hDemoSession "tag" "rock" = 20 ∧
    specHeadToHead h2hDemoSession "tag" "rock" = 10 ∧
    head_to_head h2hDemoSession "rock" "rock" = -10 ∧
    specHeadToHead h2hDemoSession "rock" "rock" = 0 := by
  refine ⟨by decide, by decide, by decide, by decide⟩

/-- Claim C8 (amended): the head-to-head entry for the ordered pair
(s1, s2) equals the sum, over hands and over players of style s1 in the
hand, of that player's stack delta counted once per differently-named
player of style s2 in the same hand (so a delta is multiply counted when
several opponents share style s2, and diagonal entries arise when two
players share a style). -/
theorem head_to_head_closed_form (hands : List (List PHR)) (s1 s2 : String) :
    head_to_head hands s1 s2 = h2hClosedForm hands s1 s2 := by
  unfold head_to_head
  rw [h2hHandsFold_apply]
  simp

/-! ### Claim C9 — suited Aces monotonicity -/

/-- Suitedness of the double-suited pattern [c, c, d, d]: 12 when the two
suits coincide (a four-of-one-suit hand), 15 otherwise. -/
theorem suitScore_paired (c d : Char) : suitScore [c, c, d, d] = if c = d then 12 else 15 := by
  by_cases h : c = d
  · subst h
    simp [suitScore, List.count_cons, listMaxD]
  · simp only [suitScore]
    rw [show ([c, c, d, d] : List Char).dedup = [c, d] by
      simp [List.dedup_cons_of_mem, List.dedup_cons_of_not_mem, h, Ne.symm h]]
    simp [List.count_cons, h, Ne.symm h, listMaxD]

/-- Suitedness when the Aces take suits foreign to the rest of the hand:
at most 8. -/
theorem suitScore_scattered (d1 c1 d2 c2 : Char)
    (h11 : d1 ≠ c1) (h12 : d1 ≠ c2) (h21 : d2 ≠ c1) (h22 : d2 ≠ c2) (hd : d1 ≠ d2) :
    suitScore [d1, c1, d2, c2] ≤ 8 := by
  by_cases h : c1 = c2
  · subst h
    simp only [suitScore]
    rw [show ([d1, c1, d2, c1] : List Char).dedup = [d1, d2, c1] by
      simp [List.dedup_cons_of_mem, List.dedup_cons_of_not_mem,
        h11, h12, h21, h22, hd, Ne.symm h11, Ne.symm h21, Ne.symm hd]]
    simp [List.count_cons, h11, h12, h21, h22, hd,
      Ne.symm h11, Ne.symm h21, Ne.symm hd, listMaxD]
  · simp only [suitScore]
    rw [show ([d1, c1, d2, c2] : List Char).dedup = [d1, c1, d2, c2] by
      simp [List.dedup_cons_of_mem, List.dedup_cons_of_not_mem, h11, h12, h21, h22, hd, h,
        Ne.symm h11, Ne.symm h12, Ne.symm h21, Ne.symm h22, Ne.symm hd, Ne.symm h]]
    simp [List.count_cons, h11, h12, h21, h22, hd, h,
      Ne.symm h11, Ne.symm h12, Ne.symm h21, Ne.symm h22, Ne.symm hd, Ne.symm h, listMaxD]

/-- Each Ace suited with one of the lower cards sets the suited-Ace flag. -/
theorem suitedAce_paired (qx qy : ℚ) (c d : Char) :
    suitedAce [14, qx, 14, qy] [c, c, d, d] = true := by
  simp [suitedAce, List.range_succ]

/-- With the Aces on suits foreign to every other hole card (and to each
other), the suited-Ace flag stays down. -/
theorem suitedAce_scattered (qx qy : ℚ) (hx : qx ≠ 14) (hy : qy ≠ 14)
    (d1 c1 d2 c2 : Char)
    (h11 : d1 ≠ c1) (h12 : d1 ≠ c2) (h21 : d2 ≠ c1) (h22 : d2 ≠ c2) (hd : d1 ≠ d2) :
    suitedAce [14, qx, 14, qy] [d1, c1, d2, c2] = false := by
  simp [suitedAce, List.range_succ, hx, hy, h11, h12, h21, h22, hd, Ne.symm hd]

/-- The scorer on a well-formed four-card hand, in component form. -/
theorem score_omaha_hand_four (r1 s1 r2 s2 r3 s3 r4 s4 : String) :
    score_omaha_hand [.card r1 s1, .card r2 s2, .card r3 s3, .card r4 s4] =
      min 100 (max 0
        (highCardScore [lookupD RANK_VALUES r1 7, lookupD RANK_VALUES r2 7,
            lookupD RANK_VALUES r3 7, lookupD RANK_VALUES r4 7]
          + pairScore [lookupD RANK_VALUES r1 7, lookupD RANK_VALUES r2 7,
            lookupD RANK_VALUES r3 7, lookupD RANK_VALUES r4 7]
          + suitScore [lookupD SUIT_CONVERT s1 'c', lookupD SUIT_CONVERT s2 'c',
            lookupD SUIT_CONVERT s3 'c', lookupD SUIT_CONVERT s4 'c']
          + connectScore [lookupD RANK_VALUES r1 7, lookupD RANK_VALUES r2 7,
            lookupD RANK_VALUES r3 7, lookupD RANK_VALUES r4 7]
          + nutScore [lookupD RANK_VALUES r1 7, lookupD RANK_VALUES r2 7,
              lookupD RANK_VALUES r3 7, lookupD RANK_VALUES r4 7]
            [lookupD SUIT_CONVERT s1 'c', lookupD SUIT_CONVERT s2 'c',
              lookupD SUIT_CONVERT s3 'c', lookupD SUIT_CONVERT s4 'c'])) := rfl

/-- Claim C9: a hand of two Aces each suited with one of two lower,
differently-ranked cards scores at least as much as the same four ranks
with the Aces moved to suits shared with no other hole card. -/
theorem suited_aces_score_monotone (rx ry su1 su2 tu1 tu2 : String)
    (hx : lookupD RANK_VALUES rx 7 < 14) (hy : lookupD RANK_VALUES ry 7 < 14)
    (hxy : lookupD RANK_VALUES rx 7 ≠ lookupD RANK_VALUES ry 7)
    (h11 : lookupD SUIT_CONVERT tu1 'c' ≠ lookupD SUIT_CONVERT su1 'c')
    (h12 : lookupD SUIT_CONVERT tu1 'c' ≠ lookupD SUIT_CONVERT su2 'c')
    (h21 : lookupD SUIT_CONVERT tu2 'c' ≠ lookupD SUIT_CONVERT su1 'c')
    (h22 : lookupD SUIT_CONVERT tu2 'c' ≠ lookupD SUIT_CONVERT su2 'c')
    (hdd : lookupD SUIT_CONVERT tu1 'c' ≠ lookupD SUIT_CONVERT tu2 'c') :
    score_omaha_hand [.card "A" tu1, .card rx su1, .card "A" tu2, .card ry su2] ≤
      score_omaha_hand [.card "A" su1, .card rx su1, .card "A" su2, .card ry su2] := by
  have hA14 : lookupD RANK_VALUES "A" 7 = 14 := by decide
  rw [score_omaha_hand_four, score_omaha_hand_four, hA14]
  set qx := lookupD RANK_VALUES rx 7 with hqx
  set qy := lookupD RANK_VALUES ry 7 with hqy
  set c1 := lookupD SUIT_CONVERT su1 'c' with hc1
  set c2 := lookupD SUIT_CONVERT su2 'c' with hc2
  set d1 := lookupD SUIT_CONVERT tu1 'c' with hd1
  set d2 := lookupD SUIT_CONVERT tu2 'c' with hd2
  have hsa : suitedAce [14, qx, 14, qy] [c1, c1, c2, c2] = true := suitedAce_paired qx qy c1 c2
  have hsb : suitedAce [14, qx, 14, qy] [d1, c1, d2, c2] = false :=
    suitedAce_scattered qx qy (ne_of_lt hx) (ne_of_lt hy) d1 c1 d2 c2 h11 h12 h21 h22 hdd
  have hnA : nutScore [14, qx, 14, qy] [c1, c1, c2, c2]
      = 15 + (if 3 ≤ ([14, qx, 14, qy] : List ℚ).countP (fun r => decide (10 ≤ r))
          then (5 : ℚ) else 0) := by
    simp [nutScore, hsa]
  have hnB : nutScore [14, qx, 14, qy] [d1, c1, d2, c2]
      = 8 + (if 3 ≤ ([14, qx, 14, qy] : List ℚ).countP (fun r => decide (10 ≤ r))
          then (5 : ℚ) else 0) := by
    simp [nutScore, hsb]
  have hsA : (12 : ℚ) ≤ suitScore [c1, c1, c2, c2] := by
    rw [suitScore_paired]
    split_ifs <;> norm_num
  have hsB : suitScore [d1, c1, d2, c2] ≤ 8 :=
    suitScore_scattered d1 c1 d2 c2 h11 h12 h21 h22 hdd
  apply min_le_min (le_refl (100 : ℚ))
  apply max_le_max (le_refl (0 : ℚ))
  rw [hnA, hnB]
  linarith

/-- Witness for C9 at the concrete hands AcKsAdQh versus AsKsAhQh. -/
theorem suited_aces_score_monotone_witness :
    lookupD RANK_VALUES "K" 7 < 14 ∧ lookupD RANK_VALUES "Q" 7 < 14 ∧
    lookupD SUIT_CONVERT "c" 'c' ≠ lookupD SUIT_CONVERT "s" 'c' ∧
    lookupD SUIT_CONVERT "d" 'c' ≠ lookupD SUIT_CONVERT "h" 'c' ∧
    score_omaha_hand [.card "A" "c", .card "K" "s", .card "A" "d", .card "Q" "h"] ≤
      score_omaha_hand [.card "A" "s", .card "K" "s", .card "A" "h", .card "Q" "h"] :=
  ⟨by decide, by decide, by decide, by decide,
   suited_aces_score_monotone "K" "Q" "s" "h" "c" "d"
     (by decide) (by decide) (by decide) (by decide) (by decide)
     (by decide) (by decide) (by decide)⟩

/-! ### Claim C10 — trajectory metric totality -/

/-- The variance `compute_metrics` uses is never negative. -/
theorem varianceOfResults_nonneg (l : List ℤ) : 0 ≤ varianceOfResults l := by
  unfold varianceOfResults populationVariance
  split_ifs
  · apply div_nonneg
    · apply List.sum_nonneg
      intro x hx
      rw [List.mem_map] at hx
      obtain ⟨a, _, rfl⟩ := hx
      positivity
    · positivity
  · exact le_refl 0

/-- Claim C10: trajectory metric computation is total and never divides by
zero: an empty stack history leaves every metric at its zero default, the
drawdown percentage is 0 when the final running peak is 0, volatility is 0
on fewer than two hand results, and the Sharpe-like ratio is 0 whenever
volatility is 0. -/
theorem trajectory_metrics_totality (t : PlayerTrajectory) :
    (t.stack_history = [] → compute_metrics t = ({} : TrajectoryMetrics)) ∧
    ((ddScan t.initial_stack 0 t.stack_history).1 = 0 →
      (compute_metrics t).max_drawdown_pct = 0) ∧
    (t.hand_results.length < 2 → (compute_metrics t).volatility = 0) ∧
    ((compute_metrics t).volatility = 0 → (compute_metrics t).sharpe_ratio = 0) := by
  obtain ⟨init, hist, res⟩ := t
  cases hist with
  | nil => exact ⟨fun _ => rfl, fun _ => rfl, fun _ => rfl, fun _ => rfl⟩
  | cons x xs =>
    refine ⟨fun hemp => by simp at hemp, fun hpk => ?_, fun hlen => ?_, fun hv => ?_⟩
    · simp only [compute_metrics]
      rw [hpk]
      simp
    · have hlen2 : res.length < 2 := hlen
      have hno : ¬ (1 < res.length) := by omega
      simp [compute_metrics, varianceOfResults, hno]
    · simp only [compute_metrics] at hv ⊢
      have hnn : (0 : ℚ) ≤ varianceOfResults res := varianceOfResults_nonneg res
      have hle : ((varianceOfResults res : ℚ) : ℝ) ≤ 0 := Real.sqrt_eq_zero'.mp hv
      rw [if_neg]
      rintro ⟨hpos, -⟩
      have hgt : (0 : ℝ) < ((varianceOfResults res : ℚ) : ℝ) := by exact_mod_cast hpos
      linarith

/-- Witness for C10 at the empty trajectory. -/
theorem trajectory_metrics_totality_witness :
    compute_metrics ⟨0, [], []⟩ = ({} : TrajectoryMetrics) ∧
    (compute_metrics ⟨0, [], []⟩).max_drawdown_pct = 0 ∧
    (compute_metrics ⟨0, [], []⟩).volatility = 0 ∧
    (compute_metrics ⟨0, [], []⟩).sharpe_ratio = 0 := by
  have h := trajectory_metrics_totality ⟨0, [], []⟩
  exact ⟨h.1 rfl, h.2.1 rfl, h.2.2.1 (by decide), h.2.2.2 (h.2.2.1 (by decide))⟩

end PokerScenario
